import Mathlib

/-!
Shallow embedding of the parameter-flattening, cleaning, canonicalization and
request-signing core of the `python-amazon-mws` repository
(`src/mws/utils/params.py` and `src/mws/mws.py`), together with theorems
settling the frozen claims about that core.

Python values that can appear in a request-parameter structure are modelled by
the inductive type `PValue` (strings, ints, bools, `None`, dates, dicts and
non-string iterables such as lists).  Python dicts are modelled as association
lists in insertion order (Python 3.7+ dicts preserve insertion order); machine
integers do not appear, all arithmetic is on `Nat`/`Int`.  Functions that can
raise (`ValueError` / `MWSError`) return `Except String`.
-/

set_option maxRecDepth 1000000

/-! ## Byte-level string helpers

Python encodes strings to UTF-8 bytes before percent-encoding (`urllib.parse.quote`)
and before HMAC signing (`str.encode()`).  Bytes are modelled as `Nat` values
below 256. -/

/-- UTF-8 encoding of a single character, as the list of its byte values
(standard RFC 3629 encoding, used by Python `str.encode()`). -/
def utf8Bytes (c : Char) : List Nat :=
  if c.toNat < 128 then [c.toNat]
  else if c.toNat < 2048 then
    [192 + c.toNat / 64, 128 + c.toNat % 64]
  else if c.toNat < 65536 then
    [224 + c.toNat / 4096, 128 + (c.toNat / 64) % 64, 128 + c.toNat % 64]
  else
    [240 + c.toNat / 262144, 128 + (c.toNat / 4096) % 64,
     128 + (c.toNat / 64) % 64, 128 + c.toNat % 64]

/-- UTF-8 bytes of a list of characters. -/
def utf8BytesOfList (l : List Char) : List Nat :=
  (l.map utf8Bytes).flatten

/-- UTF-8 bytes of a string: the model of Python `s.encode()`. -/
def strBytes (s : String) : List Nat :=
  utf8BytesOfList s.data

/-- The characters `urllib.parse.quote(val, safe="-_.~")` never escapes:
ASCII alphanumerics plus `-`, `_`, `.`, `~` (byte values 45, 95, 46, 126). -/
def safeByte (b : Nat) : Bool :=
  (65 ≤ b && b ≤ 90) || (97 ≤ b && b ≤ 122) || (48 ≤ b && b ≤ 57) ||
  (b == 45) || (b == 95) || (b == 46) || (b == 126)

/-- Uppercase hexadecimal digits, used by `quote` for `%XX` escapes. -/
def hexChars : List Char := "0123456789ABCDEF".data

/-- Output characters `quote` produces for one input byte: the byte itself when
safe, otherwise a three-character `%XX` escape with uppercase hex digits. -/
def quoteByteChars (b : Nat) : List Char :=
  if safeByte b then [Char.ofNat b]
  else ['%', hexChars.getD (b / 16) '0', hexChars.getD (b % 16) '0']

/-! ## Data model -/

/-- A Python value as accepted by the parameter pipeline: a scalar (string,
int, bool, `None`, `datetime.date`), a dict, or a non-string iterable
(list/tuple, modelled as a list; order is significant).  A date is kept as
year/month/day so that `isoformat()` can be modelled. -/
inductive PValue where
  | str (s : String)
  | int (n : Int)
  | bool (b : Bool)
  | none
  | date (y m d : Nat)
  | dict (entries : List (String × PValue))
  | list (elems : List PValue)

/-- Whether the value is a Python `dict` (`isinstance(value, dict)`). -/
def PValue.isDict : PValue → Bool
  | .dict _ => true
  | _ => false

/-- Whether the value is a non-string, non-dict iterable: the test performed by
`RequestParameter._val_is_iterable` and by `flat_param_dict`
(`isinstance(value, Iterable)` after excluding `str` and `dict`). -/
def PValue.isIter : PValue → Bool
  | .list _ => true
  | _ => false

/-- Python truthiness (`bool(v)`) of a modelled value: empty strings, zero,
`False`, `None` and empty containers are falsy; dates are always truthy. -/
def pyTruthy : PValue → Bool
  | .str s => !(s == "")
  | .int n => !(n == 0)
  | .bool b => b
  | .none => false
  | .date _ _ _ => true
  | .dict es => !es.isEmpty
  | .list xs => !xs.isEmpty

/-- Structural induction principle for `PValue` giving pointwise induction
hypotheses for the values stored inside `dict` and `list` nodes. -/
def PValue.myInduction (motive : PValue → Prop)
    (hstr : ∀ s, motive (.str s)) (hint : ∀ n, motive (.int n))
    (hbool : ∀ b, motive (.bool b)) (hnone : motive .none)
    (hdate : ∀ y m d, motive (.date y m d))
    (hdict : ∀ es, (∀ kv ∈ es, motive kv.2) → motive (.dict es))
    (hlist : ∀ xs, (∀ x ∈ xs, motive x) → motive (.list xs)) :
    ∀ v, motive v
  | .str s => hstr s
  | .int n => hint n
  | .bool b => hbool b
  | .none => hnone
  | .date y m d => hdate y m d
  | .dict es => hdict es (fun kv hkv =>
      PValue.myInduction motive hstr hint hbool hnone hdate hdict hlist kv.2)
  | .list xs => hlist xs (fun x hx =>
      PValue.myInduction motive hstr hint hbool hnone hdate hdict hlist x)
termination_by v => sizeOf v
decreasing_by
  · have h1 := List.sizeOf_lt_of_mem hkv
    cases kv with
    | mk a b => simp at h1 ⊢; omega
  · have h1 := List.sizeOf_lt_of_mem hx
    simp; omega

/-! ## Python dict semantics for association lists

`output[key] = val` and `output.update(other)` on a Python dict: an existing
key keeps its position and gets the new value, a fresh key is appended. -/

/-- Model of `d[k] = v` on a Python dict kept as an association list. -/
def dictInsert (d : List (String × α)) (k : String) (v : α) : List (String × α) :=
  if d.any (fun q => q.1 == k) then
    d.map (fun q => if q.1 == k then (q.1, v) else q)
  else d ++ [(k, v)]

/-- Model of `d.update(e)` on Python dicts: insert the entries of `e` left to
right into `d`. -/
def dictUpdate (d e : List (String × α)) : List (String × α) :=
  e.foldl (fun acc q => dictInsert acc q.1 q.2) d

/-- Model of `d[k]` lookup on a Python dict (first matching entry; the default
is irrelevant for dicts, which have unique keys). -/
def dictGet (d : List (String × α)) (k : String) (dflt : α) : α :=
  (((d.find? (fun q => q.1 == k)).map Prod.snd).getD dflt)

/-! ## Scalar cleaners (`src/mws/utils/params.py`, lines 130-179) -/

/-- Translation of `clean_string` (params.py line 160): pass the string through
`urllib.parse.quote(val, safe="-_.~")`, i.e. percent-encode every UTF-8 byte
outside the safe set, with uppercase hex escapes. -/
def clean_string (s : String) : String :=
  ⟨((strBytes s).map quoteByteChars).flatten⟩

/-- Translation of `clean_bool` (params.py line 168): `json.dumps` of a Python
bool, which renders the lowercase JSON literals `true` / `false`.  The
`ValueError` branch for non-bool arguments is unreachable on a `Bool` domain. -/
def clean_bool (b : Bool) : String :=
  if b then "true" else "false"

/-- ISO-8601 rendering of a `datetime.date` (`val.isoformat()`,
zero-padded `YYYY-MM-DD`). -/
def isoformat (y m d : Nat) : String :=
  let pad4 := fun (n : Nat) => String.mk (List.replicate (4 - (toString n).length) '0') ++ toString n
  let pad2 := fun (n : Nat) => String.mk (List.replicate (2 - (toString n).length) '0') ++ toString n
  pad4 y ++ "-" ++ pad2 m ++ "-" ++ pad2 d

/-- Translation of `clean_date` (params.py line 175): ISO-8601 string, then
`clean_string`. -/
def clean_date (y m d : Nat) : String :=
  clean_string (isoformat y m d)

/-- Python `str(value)` for the scalar values of the model (`str(None)` is
`"None"`; `str` of a bool is `"True"`/`"False"`). -/
def pyStr : PValue → String
  | .str s => s
  | .int n => toString n
  | .bool b => if b then "True" else "False"
  | .none => "None"
  | .date y m d => isoformat y m d
  | .dict _ => ""
  | .list _ => ""

/-- Translation of `clean_value` (params.py line 146): reject containers with
`ValueError`, clean dates with `clean_date`, bools with `clean_bool`, and
everything else as `clean_string(str(val))`. -/
def clean_value : PValue → Except String String
  | .dict _ => .error "Cannot clean parameter value of type dict"
  | .list _ => .error "Cannot clean parameter value of type list"
  | .date y m d => .ok (clean_date y m d)
  | .bool b => .ok (clean_bool b)
  | v => .ok (clean_string (pyStr v))

/-- Loop body of `clean_params_dict` (params.py line 130): clean each value in
order, building the output dict; a `ValueError` propagates (as `MWSError`). -/
def clean_params_dict_loop :
    List (String × PValue) → List (String × String) → Except String (List (String × String))
  | [], acc => .ok acc
  | (k, v) :: rest, acc =>
    match clean_value v with
    | .error e => .error e
    | .ok s => clean_params_dict_loop rest (dictInsert acc k s)

/-- Whether the value is Python `None` (the `v is not None` test). -/
def PValue.isNone : PValue → Bool
  | .none => true
  | _ => false

/-- Whether the value compares equal to `""` in Python (the `v != ""` test):
only the empty string does. -/
def PValue.isEmptyStr : PValue → Bool
  | .str s => s == ""
  | _ => false

/-- The filter both `clean_params_dict` (params.py line 135) and `clean_params`
(mws.py line 94) apply first: keep `v` iff `v is not None and v != ""`. -/
def keepParam (kv : String × PValue) : Bool :=
  !kv.2.isNone && !kv.2.isEmptyStr

/-- Translation of `clean_params_dict` (params.py line 130): silently drop
entries whose value is `None` or the empty string, then clean every remaining
value with `clean_value`. -/
def clean_params_dict (params : List (String × PValue)) : Except String (List (String × String)) :=
  clean_params_dict_loop (params.filter keepParam) []

/-- Per-value conversion performed by `clean_params` (mws.py line 91) after the
container check: dates via `isoformat()`, bools via `str(value).lower()`,
everything else via `str(value)`; the result is then percent-encoded with
`quote(value, safe="-_.~")` (the same encoding as `clean_string`). -/
def clean_params_value : PValue → String
  | .date y m d => isoformat y m d
  | .bool b => String.mk ((pyStr (.bool b)).data.map Char.toLower)
  | v => pyStr v

/-- Loop body of `clean_params` (mws.py line 97): reject containers with
`MWSError`, otherwise store the quoted string value. -/
def clean_params_loop :
    List (String × PValue) → List (String × String) → Except String (List (String × String))
  | [], acc => .ok acc
  | (k, v) :: rest, acc =>
    match v with
    | .dict _ => .error "expected string or datetime datatype, got dict"
    | .list _ => .error "expected string or datetime datatype, got list"
    | _ => clean_params_loop rest (dictInsert acc k (clean_string (clean_params_value v)))

/-- Translation of `clean_params` (mws.py line 91): drop `None`/`""` values,
then stringify and percent-encode every remaining value. -/
def clean_params (params : List (String × PValue)) : Except String (List (String × String)) :=
  clean_params_loop (params.filter keepParam) []

/-! ## Enumerated parameters (`src/mws/utils/params.py`, lines 11-101) -/

/-- Python `param.endswith(".")` fix-up shared by the enumeration helpers:
append a `"."` unless the param string already ends in one. -/
def ensureDot (param : String) : String :=
  if param.data.getLast? = some '.' then param else param ++ "."

/-- Translation of `enumerate_param` (params.py line 11) for an iterable
`values` argument: if no value is truthy (`not any(values)`) return the empty
dict, else emit `param.N -> value` with 1-based indices. -/
def enumerate_param (param : String) (values : List PValue) : List (String × PValue) :=
  if values.any pyTruthy = false then []
  else
    (values.enum).map (fun iv => (ensureDot param ++ toString (iv.1 + 1), iv.2))

/-- The entries of a dict value, empty for non-dicts (used only under an
`isDict` guard). -/
def PValue.entries : PValue → List (String × PValue)
  | .dict es => es
  | _ => []

/-- Translation of `enumerate_keyed_param` (params.py line 50) for an iterable
`values` argument: return `{}` as soon as no value is truthy (this check comes
first), then require every value to be a dict (`ValueError` otherwise), then
emit `param.N.key -> val` for every entry of every dict, with 1-based `N`. -/
def enumerate_keyed_param (param : String) (values : List PValue) :
    Except String (List (String × PValue)) :=
  if values.any pyTruthy = false then .ok []
  else if values.all PValue.isDict = false then
    .error "Non-dict value detected. values must be a list, tuple, or set; containing only dicts."
  else
    .ok ((values.enum).foldl
      (fun acc iv =>
        dictUpdate acc (iv.2.entries.map
          (fun kv => (ensureDot param ++ toString (iv.1 + 1) ++ "." ++ kv.1, kv.2))))
      [])

/-! ## The flattener `flat_param_dict` (`src/mws/utils/params.py`, lines 182-279)

The Python function is one recursive function with two `for` loops; the loops
are made explicit here as the mutually recursive `flat_param_dict_entries`
(dict loop, with the accumulated `output` dict as an argument) and
`flat_param_dict_elems` (iterable loop with the 1-based index).  A raised
`ValueError` becomes `Except.error`. -/

/-- The prefix fix-up of params.py line 266: `if prefix and not
prefix.endswith("."): prefix += "."`. -/
def dotJoin (p : String) : String :=
  if p = "" then p
  else if p.data.getLast? = some '.' then p
  else p ++ "."

mutual

/-- Translation of `flat_param_dict(value, prefix)` (params.py line 182).
A string or any non-dict non-iterable value is the base case: with a non-empty
prefix it yields the single-entry dict `{prefix: value}` (the value kept raw,
not cleaned); with an empty prefix it raises `ValueError`.  Dicts and
iterables are expanded recursively. -/
def flat_param_dict (value : PValue) (pfx : String) :
    Except String (List (String × PValue)) :=
  match value with
  | .dict es => flat_param_dict_entries es (dotJoin pfx) []
  | .list xs => flat_param_dict_elems xs (dotJoin pfx) 1 []
  | _ =>
    if pfx = "" then
      .error "Non-dict, non-iterable value requires a prefix (would return a mapping of prefix: value)"
    else
      .ok [(pfx, value)]

/-- The dict loop of `flat_param_dict` (params.py line 270): for each
`(key, val)` recurse with `new_key = prefix + key` and merge the result into
the output with `output.update(...)`. -/
def flat_param_dict_entries (es : List (String × PValue)) (p : String)
    (output : List (String × PValue)) : Except String (List (String × PValue)) :=
  match es with
  | [] => .ok output
  | (k, sub) :: rest =>
    match flat_param_dict sub (p ++ k) with
    | .error e => .error e
    | .ok child => flat_param_dict_entries rest p (dictUpdate output child)

/-- The iterable loop of `flat_param_dict` (params.py line 275): for each
element recurse with `new_key = prefix + str(idx + 1)` (1-based index) and
merge the result into the output. -/
def flat_param_dict_elems (xs : List PValue) (p : String) (i : Nat)
    (output : List (String × PValue)) : Except String (List (String × PValue)) :=
  match xs with
  | [] => .ok output
  | x :: rest =>
    match flat_param_dict x (p ++ toString i) with
    | .error e => .error e
    | .ok child => flat_param_dict_elems rest p (i + 1) (dictUpdate output child)

end

/-! ## `RequestParameter` (`src/mws/mws.py`, lines 469-638)

`RequestParameter(key, value)` runs `validate` at construction (raising
`ValueError` when the key is empty and the value is neither a dict nor a
non-string iterable) and flattens with `to_dict`.  A `key=None` behaves like
an empty key (both are falsy and `param_key` returns `""`), so the key is
modelled as a `String`. -/

/-- Translation of the `param_key` property (mws.py line 585): empty string
for a falsy key, else the key with a `"."` appended unless already present. -/
def RequestParameter.param_key (key : String) : String :=
  if key = "" then "" else ensureDot key

mutual

/-- Translation of `RequestParameter(key=key, value=v).to_dict()`
(mws.py lines 527-570): `validate` raises `ValueError` for an empty key with a
non-dict non-iterable value; then `to_dict` returns `{}` for `None`, recurses
through `keyed_value` for dicts and `enumerated_value` for iterables, and
returns `{key: value}` for scalars (the value kept raw, not cleaned). -/
def RequestParameter.to_dict (key : String) (v : PValue) :
    Except String (List (String × PValue)) :=
  if key = "" ∧ v.isDict = false ∧ v.isIter = false then
    .error "Parameter with empty key must have a dict or iterable value."
  else
    match v with
    | .none => .ok []
    | .dict es => RequestParameter.keyed_value es (RequestParameter.param_key key) []
    | .list xs => RequestParameter.enumerated_value xs (RequestParameter.param_key key) 1 []
    | _ => .ok [(key, v)]

/-- Translation of `keyed_value` (mws.py line 598): for each `(sub_key, val)`
construct a sub-parameter with `new_key = param_key + sub_key` and merge its
`to_dict()` output into the result (`output.update(...)`). -/
def RequestParameter.keyed_value (es : List (String × PValue)) (pk : String)
    (output : List (String × PValue)) : Except String (List (String × PValue)) :=
  match es with
  | [] => .ok output
  | (k, sub) :: rest =>
    match RequestParameter.to_dict (pk ++ k) sub with
    | .error e => .error e
    | .ok child => RequestParameter.keyed_value rest pk (dictUpdate output child)

/-- Translation of `enumerated_value` (mws.py line 618): like `keyed_value`
but with `new_key = param_key + str(idx + 1)`, 1-based. -/
def RequestParameter.enumerated_value (xs : List PValue) (pk : String) (i : Nat)
    (output : List (String × PValue)) : Except String (List (String × PValue)) :=
  match xs with
  | [] => .ok output
  | x :: rest =>
    match RequestParameter.to_dict (pk ++ toString i) x with
    | .error e => .error e
    | .ok child => RequestParameter.enumerated_value rest pk (i + 1) (dictUpdate output child)

end

/-! ## Canonicalizer `calc_request_description` (`src/mws/mws.py`, lines 71-87) -/

/-- Boolean lexicographic (codepoint) order on character lists: the comparison
Python uses for `sorted()` on strings. -/
def lexLe (u v : List Char) : Bool :=
  match u, v with
  | [], _ => true
  | c1 :: r1, c2 :: r2 => if c1 = c2 then lexLe r1 r2 else decide (c1 < c2)
  | _, [] => false

/-- Python string order `a <= b` (codepoint lexicographic), as a proposition. -/
def pyStrLe (a b : String) : Prop := lexLe a.data b.data = true

instance : DecidableRel pyStrLe := fun a b => by unfold pyStrLe; infer_instance

/-- Model of `"&".join(items)` (and `"\n".join`): join with a separator. -/
def joinSep (sep : String) : List String → String
  | [] => ""
  | [x] => x
  | x :: y :: rest => x ++ sep ++ joinSep sep (y :: rest)

/-- Translation of `calc_request_description(params)` (mws.py line 71): sort
the keys (`sorted(params.keys())`, stable codepoint-lexicographic — modelled
with insertion sort under `pyStrLe`, which computes the same sorted list),
render each pair as `key=value`, and join with `&`. -/
def calc_request_description (params : List (String × String)) : String :=
  joinSep "&"
    (((params.map Prod.fst).insertionSort pyStrLe).map
      (fun k => k ++ "=" ++ dictGet params k ""))

/-! ## Signer `calc_signature` (`src/mws/mws.py`, lines 404-423)

`hmac.new(secret_key.encode(), sig_data.encode(), hashlib.sha256)` and
`base64.b64encode` are modelled bit-for-bit: SHA-256 per FIPS 180-4 on byte
lists (32-bit words as `Nat` with explicit `% 2^32`), HMAC per RFC 2104 with
the SHA-256 block size 64, and standard base64 with `=` padding. -/

/-- `2^32`, the word modulus of SHA-256. -/
def M32 : Nat := 4294967296

/-- Right rotation of a 32-bit word `w` by `r` places. -/
def rotr32 (r w : Nat) : Nat :=
  ((w >>> r) ||| (w <<< (32 - r))) % M32

/-- The 64 SHA-256 round constants of FIPS 180-4 (the fractional parts of the
cube roots of the first 64 primes), written in decimal. -/
def sha256K : List Nat :=
  [1116352408, 1899447441, 3049323471, 3921009573, 961987163,
   1508970993, 2453635748, 2870763221, 3624381080, 310598401,
   607225278, 1426881987, 1925078388, 2162078206, 2614888103,
   3248222580, 3835390401, 4022224774, 264347078, 604807628,
   770255983, 1249150122, 1555081692, 1996064986, 2554220882,
   2821834349, 2952996808, 3210313671, 3336571891, 3584528711,
   113926993, 338241895, 666307205, 773529912, 1294757372,
   1396182291, 1695183700, 1986661051, 2177026350, 2456956037,
   2730485921, 2820302411, 3259730800, 3345764771, 3516065817,
   3600352804, 4094571909, 275423344, 430227734, 506948616,
   659060556, 883997877, 958139571, 1322822218, 1537002063,
   1747873779, 1955562222, 2024104815, 2227730452, 2361852424,
   2428436474, 2756734187, 3204031479, 3329325298]

/-- The SHA-256 initial hash value of FIPS 180-4, written in decimal. -/
def sha256H0 : List Nat :=
  [1779033703, 3144134277, 1013904242, 2773480762, 1359893119,
   2600822924, 528734635, 1541459225]

/-- Big-endian 8-byte rendering of a length-in-bits. -/
def be64 (n : Nat) : List Nat :=
  [(n >>> 56) % 256, (n >>> 48) % 256, (n >>> 40) % 256, (n >>> 32) % 256,
   (n >>> 24) % 256, (n >>> 16) % 256, (n >>> 8) % 256, n % 256]

/-- Big-endian 4-byte rendering of a 32-bit word. -/
def be32 (n : Nat) : List Nat :=
  [(n >>> 24) % 256, (n >>> 16) % 256, (n >>> 8) % 256, n % 256]

/-- SHA-256 message padding: `0x80`, zeros to 56 mod 64, 8-byte bit length. -/
def sha256Pad (msg : List Nat) : List Nat :=
  let len := msg.length
  msg ++ [128] ++ List.replicate ((119 - len % 64) % 64) 0 ++ be64 (8 * len)

/-- Group bytes into big-endian 32-bit words. -/
def toWords : List Nat → List Nat
  | b0 :: b1 :: b2 :: b3 :: rest =>
    (b0 <<< 24 ||| b1 <<< 16 ||| b2 <<< 8 ||| b3) :: toWords rest
  | _ => []

/-- SHA-256 small sigma 0. -/
def ssig0 (x : Nat) : Nat := (rotr32 7 x) ^^^ (rotr32 18 x) ^^^ (x >>> 3)
/-- SHA-256 small sigma 1. -/
def ssig1 (x : Nat) : Nat := (rotr32 17 x) ^^^ (rotr32 19 x) ^^^ (x >>> 10)
/-- SHA-256 big sigma 0. -/
def bsig0 (x : Nat) : Nat := (rotr32 2 x) ^^^ (rotr32 13 x) ^^^ (rotr32 22 x)
/-- SHA-256 big sigma 1. -/
def bsig1 (x : Nat) : Nat := (rotr32 6 x) ^^^ (rotr32 11 x) ^^^ (rotr32 25 x)

/-- Extend the 16 message words to 64 (the fuel argument is 48, one per new
word). -/
def extendW : Nat → List Nat → List Nat
  | 0, w => w
  | fuel + 1, w =>
    let n := w.length
    let wi := (ssig1 (w.getD (n - 2) 0) + w.getD (n - 7) 0 +
               ssig0 (w.getD (n - 15) 0) + w.getD (n - 16) 0) % M32
    extendW fuel (w ++ [wi])

/-- One SHA-256 compression round on the 8-word state
`[s0, s1, s2, s3, s4, s5, s6, s7]` (the `Ch`/`Maj` functions of FIPS 180-4,
with bitwise complement written as subtraction from `2^32 - 1`). -/
def compressStep (st : List Nat) (kw : Nat × Nat) : List Nat :=
  match st with
  | [s0, s1, s2, s3, s4, s5, s6, s7] =>
    let chv := ((s4 &&& s5) ^^^ ((M32 - 1 - s4) &&& s6))
    let mjv := ((s0 &&& s1) ^^^ ((s0 &&& s2) ^^^ (s1 &&& s2)))
    let t1 := (s7 + bsig1 s4 + chv + kw.1 + kw.2) % M32
    let t2 := (bsig0 s0 + mjv) % M32
    [(t1 + t2) % M32, s0, s1, s2, (s3 + t1) % M32, s4, s5, s6]
  | other => other

/-- Compress one 64-byte block into the hash state. -/
def compressBlock (h : List Nat) (block : List Nat) : List Nat :=
  let w := extendW 48 (toWords block)
  let st := (sha256K.zip w).foldl compressStep h
  (h.zip st).map (fun xy => (xy.1 + xy.2) % M32)

/-- Split into 64-byte blocks.  The fuel is the list length, which always
suffices because every step consumes 64 > 0 bytes of a non-empty list. -/
def chunks64Aux : Nat → List Nat → List (List Nat)
  | 0, _ => []
  | fuel + 1, l =>
    if l = [] then []
    else l.take 64 :: chunks64Aux fuel (l.drop 64)

/-- Split a byte list into 64-byte blocks. -/
def chunks64 (l : List Nat) : List (List Nat) :=
  chunks64Aux l.length l

/-- SHA-256 of a byte list, as the 32-byte digest. -/
def sha256 (msg : List Nat) : List Nat :=
  (((chunks64 (sha256Pad msg)).foldl compressBlock sha256H0).map be32).flatten

/-- HMAC-SHA256 (RFC 2104): keys longer than the 64-byte block are hashed
first, the key is zero-padded to 64 bytes, and the inner/outer pads are
`0x36`/`0x5c`. -/
def hmacSha256 (key msg : List Nat) : List Nat :=
  let k0 := if key.length > 64 then sha256 key else key
  let kp := k0 ++ List.replicate (64 - k0.length) 0
  sha256 ((kp.map (fun b => b ^^^ 92)) ++ sha256 ((kp.map (fun b => b ^^^ 54)) ++ msg))

/-- The standard base64 alphabet. -/
def b64Alphabet : List Char :=
  "ABCDEFGHIJKLMNOPQRSTUVWXYZabcdefghijklmnopqrstuvwxyz0123456789+/".data

/-- The base64 character for a 6-bit value. -/
def b64Char (n : Nat) : Char := b64Alphabet.getD n 'A'

/-- `base64.b64encode` on a byte list (result kept as the string of its ASCII
characters). -/
def base64Encode : List Nat → String
  | [] => ""
  | [b0] =>
    ⟨[b64Char (b0 >>> 2), b64Char ((b0 <<< 4) % 64), '=', '=']⟩
  | [b0, b1] =>
    ⟨[b64Char (b0 >>> 2), b64Char (((b0 <<< 4) ||| (b1 >>> 4)) % 64),
      b64Char ((b1 <<< 2) % 64), '=']⟩
  | b0 :: b1 :: b2 :: rest =>
    (⟨[b64Char (b0 >>> 2), b64Char (((b0 <<< 4) ||| (b1 >>> 4)) % 64),
       b64Char (((b1 <<< 2) ||| (b2 >>> 6)) % 64), b64Char (b2 % 64)]⟩ : String)
      ++ base64Encode rest

/-- Python `s.replace(pat, "")`: remove all (non-overlapping, left-to-right)
occurrences of `pat`.  The fuel is the list length; each step consumes at
least one character. -/
def removeOccAux (pat : List Char) : Nat → List Char → List Char
  | 0, s => s
  | fuel + 1, s =>
    match s with
    | [] => []
    | c :: rest =>
      if pat ≠ [] ∧ pat.isPrefixOf s then removeOccAux pat fuel (s.drop pat.length)
      else c :: removeOccAux pat fuel rest

/-- Remove all occurrences of `pat` from `s`. -/
def removeOcc (pat s : List Char) : List Char :=
  removeOccAux pat s.length s

/-- The host normalization of `calc_signature` (mws.py line 414):
`self.domain.replace("https://", "").lower()` (ASCII lowercasing). -/
def hostNorm (domain : String) : String :=
  ⟨(removeOcc "https://".data domain.data).map Char.toLower⟩

/-- The signing string of `calc_signature` (mws.py line 411):
`"\n".join([method, domain.replace("https://", "").lower(), uri,
request_description])`. -/
def signing_string (method domain uri request_description : String) : String :=
  joinSep "\n" [method, hostNorm domain, uri, request_description]

/-- Translation of `MWS.calc_signature` (mws.py line 404), with the instance
attributes `self.domain`, `self.uri`, `self.secret_key` as arguments:
base64-encoded HMAC-SHA256, keyed by the UTF-8 bytes of the secret key, of the
UTF-8 bytes of the signing string.  No validation of the secret key is
performed anywhere in this function. -/
def calc_signature (method domain uri request_description secret_key : String) : String :=
  base64Encode (hmacSha256 (strBytes secret_key)
    (strBytes (signing_string method domain uri request_description)))

/-! ## Analysis definitions for the flattener claims

`rawKeys` lists, in generation order and with multiplicity, the flat keys the
flattener produces for a value under a given prefix; `terminalCount` counts
the terminal scalars (leaves that are neither dicts nor iterables); `noNone`
decides absence of `None` anywhere in a structure. -/

mutual

/-- The flat keys `flat_param_dict value pfx` generates, with multiplicity. -/
def rawKeys : PValue → String → List String
  | .dict es, p => rawKeysEntries es (dotJoin p)
  | .list xs, p => rawKeysElems xs (dotJoin p) 1
  | _, p => [p]

/-- Keys generated for the entries of a dict under an already-dotted prefix. -/
def rawKeysEntries : List (String × PValue) → String → List String
  | [], _ => []
  | (k, sub) :: rest, p => rawKeys sub (p ++ k) ++ rawKeysEntries rest p

/-- Keys generated for the elements of an iterable under an already-dotted
prefix, starting at index `i`. -/
def rawKeysElems : List PValue → String → Nat → List String
  | [], _, _ => []
  | x :: rest, p, i => rawKeys x (p ++ toString i) ++ rawKeysElems rest p (i + 1)

end

mutual

/-- Number of terminal scalars reachable by following dict keys and iterable
indices. -/
def terminalCount : PValue → Nat
  | .dict es => terminalCountEntries es
  | .list xs => terminalCountElems xs
  | _ => 1

/-- Terminal scalars in the entries of a dict. -/
def terminalCountEntries : List (String × PValue) → Nat
  | [] => 0
  | (_, sub) :: rest => terminalCount sub + terminalCountEntries rest

/-- Terminal scalars in the elements of an iterable. -/
def terminalCountElems : List PValue → Nat
  | [] => 0
  | x :: rest => terminalCount x + terminalCountElems rest

end

mutual

/-- Whether a structure contains no `None` value anywhere. -/
def noNone : PValue → Bool
  | .none => false
  | .dict es => noNoneEntries es
  | .list xs => noNoneElems xs
  | _ => true

/-- `noNone` over the entries of a dict. -/
def noNoneEntries : List (String × PValue) → Bool
  | [] => true
  | (_, sub) :: rest => noNone sub && noNoneEntries rest

/-- `noNone` over the elements of an iterable. -/
def noNoneElems : List PValue → Bool
  | [] => true
  | x :: rest => noNone x && noNoneElems rest

end

/-! ## Lemmas about the association-list dict model -/

/-- Inserting a fresh key appends the binding. -/
theorem dictInsert_of_fresh {α : Type} (d : List (String × α)) (k : String) (v : α)
    (h : k ∉ d.map Prod.fst) : dictInsert d k v = d ++ [(k, v)] := by
  have hany : d.any (fun q => q.1 == k) = false := by
    by_contra hc
    rw [Bool.not_eq_false, List.any_eq_true] at hc
    obtain ⟨q, hq, hqk⟩ := hc
    exact h (eq_of_beq hqk ▸ List.mem_map_of_mem Prod.fst hq)
  simp [dictInsert, hany]

/-- Updating with a dict whose keys are fresh and mutually distinct appends
all its bindings in order. -/
theorem dictUpdate_of_fresh {α : Type} (e : List (String × α)) :
    ∀ d : List (String × α), (e.map Prod.fst).Nodup →
      (∀ k ∈ e.map Prod.fst, k ∉ d.map Prod.fst) → dictUpdate d e = d ++ e := by
  induction e with
  | nil => intro d _ _; simp [dictUpdate]
  | cons q rest ih =>
    intro d hnd hfresh
    have h1 : dictInsert d q.1 q.2 = d ++ [q] := by
      rw [dictInsert_of_fresh d q.1 q.2 (hfresh q.1 (by simp))]
    have hstep : dictUpdate d (q :: rest) = dictUpdate (dictInsert d q.1 q.2) rest := by
      simp [dictUpdate]
    rw [hstep, h1]
    rw [List.map_cons] at hnd hfresh
    have hnd2 := List.nodup_cons.mp hnd
    have hres := ih (d ++ [q]) hnd2.2 ?_
    · rw [hres, List.append_assoc, List.singleton_append]
    · intro k hk
      simp only [List.map_append, List.mem_append, List.map_cons, List.map_nil]
      rintro (hkd | hkq)
      · exact hfresh k (List.mem_cons_of_mem _ hk) hkd
      · simp at hkq
        exact hnd2.1 (hkq ▸ hk)

/-- `dictInsert` preserves a predicate on stored values. -/
theorem dictInsert_snd_prop {α : Type} {P : α → Prop} {d : List (String × α)}
    {k : String} {v : α} (hd : ∀ q ∈ d, P q.2) (hv : P v) :
    ∀ q ∈ dictInsert d k v, P q.2 := by
  intro q hq
  unfold dictInsert at hq
  by_cases hc : (d.any (fun r => r.1 == k)) = true
  · rw [if_pos hc] at hq
    obtain ⟨r, hr, hrq⟩ := List.mem_map.mp hq
    by_cases hrk : (r.1 == k) = true
    · rw [if_pos hrk] at hrq
      rw [← hrq]
      exact hv
    · rw [if_neg hrk] at hrq
      rw [← hrq]
      exact hd r hr
  · rw [if_neg hc] at hq
    rcases List.mem_append.mp hq with hqd | hqv
    · exact hd q hqd
    · have : q = (k, v) := by simpa using hqv
      rw [this]
      exact hv

/-- `dictUpdate` preserves a predicate on stored values. -/
theorem dictUpdate_snd_prop {α : Type} {P : α → Prop} (e : List (String × α)) :
    ∀ d : List (String × α), (∀ q ∈ d, P q.2) → (∀ q ∈ e, P q.2) →
      ∀ q ∈ dictUpdate d e, P q.2 := by
  induction e with
  | nil => intro d hd _; simpa [dictUpdate] using hd
  | cons r rest ih =>
    intro d hd he
    have hstep : dictUpdate d (r :: rest) = dictUpdate (dictInsert d r.1 r.2) rest := by
      simp [dictUpdate]
    rw [hstep]
    exact ih _ (dictInsert_snd_prop hd (he r (by simp)))
      (fun q hq => he q (List.mem_cons_of_mem _ hq))

/-- In a dict with distinct keys, entries are determined by their key. -/
theorem entry_unique {α : Type} {p : List (String × α)}
    (hnd : (p.map Prod.fst).Nodup) {a b : String × α}
    (ha : a ∈ p) (hb : b ∈ p) (hk : a.1 = b.1) : a = b := by
  induction p with
  | nil => cases ha
  | cons c rest ih =>
    rw [List.map_cons, List.nodup_cons] at hnd
    rcases List.mem_cons.mp ha with ha1 | ha2 <;>
      rcases List.mem_cons.mp hb with hb1 | hb2
    · rw [ha1, hb1]
    · exfalso
      apply hnd.1
      rw [← ha1, hk]
      exact List.mem_map_of_mem Prod.fst hb2
    · exfalso
      apply hnd.1
      rw [← hb1, ← hk]
      exact List.mem_map_of_mem Prod.fst ha2
    · exact ih hnd.2 ha2 hb2

/-- Lookup in a dict with distinct keys is invariant under permutation. -/
theorem dictGet_perm {α : Type} {p q : List (String × α)} {dflt : α}
    (hnd : (p.map Prod.fst).Nodup) (hp : p.Perm q) (k : String) :
    dictGet p k dflt = dictGet q k dflt := by
  unfold dictGet
  cases hfp : p.find? (fun r => r.1 == k) with
  | none =>
    have hq : q.find? (fun r => r.1 == k) = none := by
      rw [List.find?_eq_none] at hfp ⊢
      intro x hx
      exact hfp x (hp.mem_iff.mpr hx)
    rw [hq]
  | some r =>
    have hr := List.find?_some hfp
    have hrp := List.mem_of_find?_eq_some hfp
    have hrq : r ∈ q := hp.mem_iff.mp hrp
    have hsome : (q.find? (fun r => r.1 == k)).isSome := by
      rw [List.find?_isSome]
      exact ⟨r, hrq, hr⟩
    obtain ⟨s, hfq⟩ := Option.isSome_iff_exists.mp hsome
    have hs := List.find?_some hfq
    have hsq := List.mem_of_find?_eq_some hfq
    have hsp : s ∈ p := hp.mem_iff.mpr hsq
    have : s = r := entry_unique hnd hsp hrp (by
      have h1 : s.1 = k := by simpa using hs
      have h2 : r.1 = k := by simpa using hr
      rw [h1, h2])
    rw [hfq, this]

/-! ## Lexicographic order lemmas for the canonicalizer -/

theorem lexLe_total (a b : List Char) : lexLe a b = true ∨ lexLe b a = true := by
  induction a generalizing b with
  | nil => left; cases b <;> rfl
  | cons c cs ih =>
    cases b with
    | nil => right; rfl
    | cons d ds =>
      by_cases hcd : c = d
      · subst hcd
        rcases ih ds with h | h
        · left; simpa [lexLe] using h
        · right; simpa [lexLe] using h
      · rcases lt_or_gt_of_ne hcd with h | h
        · left; simp [lexLe, hcd, h]
        · right; simp [lexLe, Ne.symm hcd, h]

theorem lexLe_trans {a b c : List Char} (h1 : lexLe a b = true) (h2 : lexLe b c = true) :
    lexLe a c = true := by
  induction a generalizing b c with
  | nil => cases c <;> rfl
  | cons x xs ih =>
    cases b with
    | nil => simp [lexLe] at h1
    | cons y ys =>
      cases c with
      | nil => simp [lexLe] at h2
      | cons z zs =>
        by_cases hxy : x = y
        · subst hxy
          by_cases hyz : x = z
          · subst hyz
            simp only [lexLe, if_pos rfl] at h1 h2 ⊢
            exact ih h1 h2
          · simp only [lexLe, if_pos rfl] at h1
            simp only [lexLe, if_neg hyz] at h2 ⊢
            exact h2
        · simp only [lexLe, if_neg hxy, decide_eq_true_eq] at h1
          by_cases hyz : y = z
          · subst hyz
            simp [lexLe, hxy, h1]
          · simp only [lexLe, if_neg hyz, decide_eq_true_eq] at h2
            have hxz : x < z := lt_trans h1 h2
            simp [lexLe, ne_of_lt hxz, hxz]

theorem lexLe_antisymm {a b : List Char} (h1 : lexLe a b = true) (h2 : lexLe b a = true) :
    a = b := by
  induction a generalizing b with
  | nil =>
    cases b with
    | nil => rfl
    | cons y ys => simp [lexLe] at h2
  | cons x xs ih =>
    cases b with
    | nil => simp [lexLe] at h1
    | cons y ys =>
      by_cases hxy : x = y
      · subst hxy
        simp only [lexLe, if_pos rfl] at h1 h2
        rw [ih h1 h2]
      · simp only [lexLe, if_neg hxy, decide_eq_true_eq] at h1
        simp only [lexLe, if_neg (Ne.symm hxy), decide_eq_true_eq] at h2
        exact absurd (lt_trans h1 h2) (lt_irrefl x)

instance : IsTotal String pyStrLe where
  total a b := lexLe_total a.data b.data

instance : IsTrans String pyStrLe where
  trans a b c h1 h2 := lexLe_trans h1 h2

instance : IsAntisymm String pyStrLe where
  antisymm a b h1 h2 := by
    have h3 : a.data = b.data := lexLe_antisymm h1 h2
    cases a
    cases b
    exact congrArg String.mk h3

/-! ## Key-counting lemmas for the flattener -/

theorem rawKeysEntries_length (es : List (String × PValue))
    (hih : ∀ kv ∈ es, ∀ q, (rawKeys kv.2 q).length = terminalCount kv.2) :
    ∀ p, (rawKeysEntries es p).length = terminalCountEntries es := by
  induction es with
  | nil => intro p; simp [rawKeysEntries, terminalCountEntries]
  | cons kv rest ih =>
    intro p
    obtain ⟨k, sub⟩ := kv
    simp only [rawKeysEntries, terminalCountEntries, List.length_append]
    rw [hih (k, sub) (by simp) (p ++ k),
      ih (fun kv h2 => hih kv (List.mem_cons_of_mem _ h2)) p]

theorem rawKeysElems_length (xs : List PValue)
    (hih : ∀ x ∈ xs, ∀ q, (rawKeys x q).length = terminalCount x) :
    ∀ p i, (rawKeysElems xs p i).length = terminalCountElems xs := by
  induction xs with
  | nil => intro p i; simp [rawKeysElems, terminalCountElems]
  | cons x rest ih =>
    intro p i
    simp only [rawKeysElems, terminalCountElems, List.length_append]
    rw [hih x (by simp) (p ++ toString i),
      ih (fun x h2 => hih x (List.mem_cons_of_mem _ h2)) p (i + 1)]

/-- The number of raw keys equals the number of terminal scalars. -/
theorem rawKeys_length : ∀ v : PValue, ∀ p, (rawKeys v p).length = terminalCount v := by
  intro v
  induction v using PValue.myInduction with
  | hstr s => intro p; simp [rawKeys, terminalCount]
  | hint n => intro p; simp [rawKeys, terminalCount]
  | hbool b => intro p; simp [rawKeys, terminalCount]
  | hnone => intro p; simp [rawKeys, terminalCount]
  | hdate y m d => intro p; simp [rawKeys, terminalCount]
  | hdict es ih =>
    intro p
    simp only [rawKeys, terminalCount]
    exact rawKeysEntries_length es ih (dotJoin p)
  | hlist xs ih =>
    intro p
    simp only [rawKeys, terminalCount]
    exact rawKeysElems_length xs ih (dotJoin p) 1

theorem flat_entries_keys (es : List (String × PValue))
    (hih : ∀ kv ∈ es, ∀ q out, flat_param_dict kv.2 q = .ok out →
      (rawKeys kv.2 q).Nodup → out.map Prod.fst = rawKeys kv.2 q) :
    ∀ p acc out, flat_param_dict_entries es p acc = .ok out →
      (acc.map Prod.fst ++ rawKeysEntries es p).Nodup →
      out.map Prod.fst = acc.map Prod.fst ++ rawKeysEntries es p := by
  induction es with
  | nil =>
    intro p acc out h hnd
    simp only [flat_param_dict_entries] at h
    injection h with h2
    subst h2
    simp [rawKeysEntries]
  | cons kv rest ih =>
    intro p acc out h hnd
    obtain ⟨k, sub⟩ := kv
    simp only [flat_param_dict_entries] at h
    split at h
    · exact Except.noConfusion h
    · rename_i child hsub
      simp only [rawKeysEntries] at hnd ⊢
      rw [← List.append_assoc] at hnd
      have hnd' := hnd
      rw [List.nodup_append] at hnd
      obtain ⟨hnd_left, hnd_rest, hdisj⟩ := hnd
      rw [List.nodup_append] at hnd_left
      obtain ⟨hnd_acc, hnd_raw, hdisj2⟩ := hnd_left
      have hchild : child.map Prod.fst = rawKeys sub (p ++ k) :=
        hih (k, sub) (by simp) (p ++ k) child hsub hnd_raw
      have hupd : dictUpdate acc child = acc ++ child := by
        apply dictUpdate_of_fresh
        · rw [hchild]; exact hnd_raw
        · intro k2 hk2 hk2acc
          rw [hchild] at hk2
          exact hdisj2 hk2acc hk2
      rw [hupd] at h
      have hres := ih (fun kv h2 => hih kv (List.mem_cons_of_mem _ h2)) p (acc ++ child) out h ?_
      · rw [hres, List.map_append, hchild, List.append_assoc]
      · rw [List.map_append, hchild]
        exact hnd'

theorem flat_elems_keys (xs : List PValue)
    (hih : ∀ x ∈ xs, ∀ q out, flat_param_dict x q = .ok out →
      (rawKeys x q).Nodup → out.map Prod.fst = rawKeys x q) :
    ∀ p i acc out, flat_param_dict_elems xs p i acc = .ok out →
      (acc.map Prod.fst ++ rawKeysElems xs p i).Nodup →
      out.map Prod.fst = acc.map Prod.fst ++ rawKeysElems xs p i := by
  induction xs with
  | nil =>
    intro p i acc out h hnd
    simp only [flat_param_dict_elems] at h
    injection h with h2
    subst h2
    simp [rawKeysElems]
  | cons x rest ih =>
    intro p i acc out h hnd
    simp only [flat_param_dict_elems] at h
    split at h
    · exact Except.noConfusion h
    · rename_i child hsub
      simp only [rawKeysElems] at hnd ⊢
      rw [← List.append_assoc] at hnd
      have hnd' := hnd
      rw [List.nodup_append] at hnd
      obtain ⟨hnd_left, hnd_rest, hdisj⟩ := hnd
      rw [List.nodup_append] at hnd_left
      obtain ⟨hnd_acc, hnd_raw, hdisj2⟩ := hnd_left
      have hchild : child.map Prod.fst = rawKeys x (p ++ toString i) :=
        hih x (by simp) (p ++ toString i) child hsub hnd_raw
      have hupd : dictUpdate acc child = acc ++ child := by
        apply dictUpdate_of_fresh
        · rw [hchild]; exact hnd_raw
        · intro k2 hk2 hk2acc
          rw [hchild] at hk2
          exact hdisj2 hk2acc hk2
      rw [hupd] at h
      have hres := ih (fun x h2 => hih x (List.mem_cons_of_mem _ h2)) p (i + 1) (acc ++ child) out h ?_
      · rw [hres, List.map_append, hchild, List.append_assoc]
      · rw [List.map_append, hchild]
        exact hnd'

/-- When the generated keys are mutually distinct, the output keys of a
successful flattening are exactly the generated keys, in order. -/
theorem flat_keys : ∀ v : PValue, ∀ p out, flat_param_dict v p = .ok out →
    (rawKeys v p).Nodup → out.map Prod.fst = rawKeys v p := by
  intro v
  induction v using PValue.myInduction with
  | hdict es ih =>
    intro p out h hnd
    simp only [flat_param_dict] at h
    simp only [rawKeys] at hnd ⊢
    have := flat_entries_keys es ih (dotJoin p) [] out h (by simpa using hnd)
    simpa using this
  | hlist xs ih =>
    intro p out h hnd
    simp only [flat_param_dict] at h
    simp only [rawKeys] at hnd ⊢
    have := flat_elems_keys xs ih (dotJoin p) 1 [] out h (by simpa using hnd)
    simpa using this
  | hstr s =>
    intro p out h hnd
    simp only [flat_param_dict] at h
    split at h
    · exact Except.noConfusion h
    · injection h with h2; subst h2; simp [rawKeys]
  | hint n =>
    intro p out h hnd
    simp only [flat_param_dict] at h
    split at h
    · exact Except.noConfusion h
    · injection h with h2; subst h2; simp [rawKeys]
  | hbool b =>
    intro p out h hnd
    simp only [flat_param_dict] at h
    split at h
    · exact Except.noConfusion h
    · injection h with h2; subst h2; simp [rawKeys]
  | hnone =>
    intro p out h hnd
    simp only [flat_param_dict] at h
    split at h
    · exact Except.noConfusion h
    · injection h with h2; subst h2; simp [rawKeys]
  | hdate y m d =>
    intro p out h hnd
    simp only [flat_param_dict] at h
    split at h
    · exact Except.noConfusion h
    · injection h with h2; subst h2; simp [rawKeys]

/-! ## None-omission lemmas for `RequestParameter.to_dict` -/

theorem keyed_value_no_none (es : List (String × PValue))
    (hih : ∀ kv ∈ es, ∀ key out, RequestParameter.to_dict key kv.2 = .ok out →
      ∀ q ∈ out, q.2 ≠ PValue.none) :
    ∀ pk acc out, RequestParameter.keyed_value es pk acc = .ok out →
      (∀ q ∈ acc, q.2 ≠ PValue.none) → ∀ q ∈ out, q.2 ≠ PValue.none := by
  induction es with
  | nil =>
    intro pk acc out h hacc
    simp only [RequestParameter.keyed_value] at h
    injection h with h2
    subst h2
    exact hacc
  | cons kv rest ih =>
    intro pk acc out h hacc
    obtain ⟨k, sub⟩ := kv
    simp only [RequestParameter.keyed_value] at h
    split at h
    · exact Except.noConfusion h
    · rename_i child hsub
      exact ih (fun kv h2 => hih kv (List.mem_cons_of_mem _ h2)) pk _ out h
        (@dictUpdate_snd_prop PValue (fun x => x ≠ PValue.none) child acc hacc
          (hih (k, sub) (by simp) (pk ++ k) child hsub))

theorem enumerated_value_no_none (xs : List PValue)
    (hih : ∀ x ∈ xs, ∀ key out, RequestParameter.to_dict key x = .ok out →
      ∀ q ∈ out, q.2 ≠ PValue.none) :
    ∀ pk i acc out, RequestParameter.enumerated_value xs pk i acc = .ok out →
      (∀ q ∈ acc, q.2 ≠ PValue.none) → ∀ q ∈ out, q.2 ≠ PValue.none := by
  induction xs with
  | nil =>
    intro pk i acc out h hacc
    simp only [RequestParameter.enumerated_value] at h
    injection h with h2
    subst h2
    exact hacc
  | cons x rest ih =>
    intro pk i acc out h hacc
    simp only [RequestParameter.enumerated_value] at h
    split at h
    · exact Except.noConfusion h
    · rename_i child hsub
      exact ih (fun x h2 => hih x (List.mem_cons_of_mem _ h2)) pk (i + 1) _ out h
        (@dictUpdate_snd_prop PValue (fun x => x ≠ PValue.none) child acc hacc
          (hih x (by simp) (pk ++ toString i) child hsub))

/-- A successful `RequestParameter.to_dict` never stores a `None` value. -/
theorem to_dict_no_none : ∀ v : PValue, ∀ key out,
    RequestParameter.to_dict key v = .ok out → ∀ q ∈ out, q.2 ≠ PValue.none := by
  intro v
  induction v using PValue.myInduction with
  | hstr s =>
    intro key out h q hq
    simp only [RequestParameter.to_dict] at h
    split at h
    · exact Except.noConfusion h
    · injection h with h2
      subst h2
      have hq2 : q = (key, PValue.str s) := by simpa using hq
      rw [hq2]
      simp
  | hint n =>
    intro key out h q hq
    simp only [RequestParameter.to_dict] at h
    split at h
    · exact Except.noConfusion h
    · injection h with h2
      subst h2
      have hq2 : q = (key, PValue.int n) := by simpa using hq
      rw [hq2]
      simp
  | hbool b =>
    intro key out h q hq
    simp only [RequestParameter.to_dict] at h
    split at h
    · exact Except.noConfusion h
    · injection h with h2
      subst h2
      have hq2 : q = (key, PValue.bool b) := by simpa using hq
      rw [hq2]
      simp
  | hnone =>
    intro key out h q hq
    simp only [RequestParameter.to_dict] at h
    split at h
    · exact Except.noConfusion h
    · injection h with h2
      subst h2
      cases hq
  | hdate y m d =>
    intro key out h q hq
    simp only [RequestParameter.to_dict] at h
    split at h
    · exact Except.noConfusion h
    · injection h with h2
      subst h2
      have hq2 : q = (key, PValue.date y m d) := by simpa using hq
      rw [hq2]
      simp
  | hdict es ih =>
    intro key out h q hq
    simp only [RequestParameter.to_dict] at h
    split at h
    · exact Except.noConfusion h
    · exact keyed_value_no_none es ih _ [] out h (by simp) q hq
  | hlist xs ih =>
    intro key out h q hq
    simp only [RequestParameter.to_dict] at h
    split at h
    · exact Except.noConfusion h
    · exact enumerated_value_no_none xs ih _ 1 [] out h (by simp) q hq

/-! ## Length lemmas for the cleaner (non-idempotence) -/

/-- A character of the unreserved set `-_.~` / alphanumerics. -/
def unreservedChar (c : Char) : Bool := safeByte c.toNat

theorem quote_chars_length (bs : List Nat) :
    ((bs.map quoteByteChars).flatten).length =
      bs.length + 2 * bs.countP (fun b => !safeByte b) := by
  induction bs with
  | nil => simp
  | cons b rest ih =>
    simp only [List.map_cons, List.flatten_cons, List.length_append, ih,
      List.countP_cons, List.length_cons]
    cases hsb : safeByte b
    · simp [quoteByteChars, hsb]
      omega
    · simp [quoteByteChars, hsb]
      omega

theorem utf8Bytes_length_pos (c : Char) : 1 ≤ (utf8Bytes c).length := by
  unfold utf8Bytes
  split_ifs <;> simp

theorem utf8BytesOfList_length (l : List Char) : l.length ≤ (utf8BytesOfList l).length := by
  induction l with
  | nil => simp [utf8BytesOfList]
  | cons c rest ih =>
    simp only [utf8BytesOfList, List.map_cons, List.flatten_cons, List.length_append,
      List.length_cons]
    have := utf8Bytes_length_pos c
    simp only [utf8BytesOfList] at ih
    omega

theorem safeByte_high_false (b : Nat) (hb : 127 ≤ b) : safeByte b = false := by
  simp only [safeByte]
  simp only [Bool.or_eq_false_iff, Bool.and_eq_false_iff, beq_eq_false_iff_ne, ne_eq,
    decide_eq_false_iff_not, not_le]
  omega

theorem exists_unsafe_byte {c : Char} (h : unreservedChar c = false) :
    ∃ b ∈ utf8Bytes c, safeByte b = false := by
  by_cases hc : c.toNat < 128
  · refine ⟨c.toNat, ?_, h⟩
    simp [utf8Bytes, hc]
  · unfold utf8Bytes
    rw [if_neg hc]
    split_ifs with h2 h3
    · exact ⟨192 + c.toNat / 64, by simp, safeByte_high_false _ (by omega)⟩
    · exact ⟨224 + c.toNat / 4096, by simp, safeByte_high_false _ (by omega)⟩
    · exact ⟨240 + c.toNat / 262144, by simp, safeByte_high_false _ (by omega)⟩

theorem percent_mem_clean {s : String} (h : ∃ c ∈ s.data, unreservedChar c = false) :
    '%' ∈ (clean_string s).data := by
  obtain ⟨c, hc, hcf⟩ := h
  obtain ⟨b, hb, hbf⟩ := exists_unsafe_byte hcf
  have hbs : b ∈ strBytes s := by
    simp only [strBytes, utf8BytesOfList, List.mem_flatten]
    exact ⟨utf8Bytes c, List.mem_map_of_mem utf8Bytes hc, hb⟩
  have hpc : '%' ∈ quoteByteChars b := by
    simp [quoteByteChars, hbf]
  show '%' ∈ ((strBytes s).map quoteByteChars).flatten
  exact List.mem_flatten.mpr ⟨quoteByteChars b, List.mem_map_of_mem quoteByteChars hbs, hpc⟩

theorem clean_grows {t : String} (h : ∃ b ∈ strBytes t, safeByte b = false) :
    t.data.length < (clean_string t).data.length := by
  have hcount : 0 < (strBytes t).countP (fun b => !safeByte b) := by
    rw [List.countP_pos_iff]
    obtain ⟨b, hb, hbf⟩ := h
    exact ⟨b, hb, by simp [hbf]⟩
  have hlen : (clean_string t).data.length =
      (strBytes t).length + 2 * (strBytes t).countP (fun b => !safeByte b) :=
    quote_chars_length (strBytes t)
  have hle : t.data.length ≤ (strBytes t).length := utf8BytesOfList_length t.data
  omega

/-! ## Small rendering facts used to evaluate concrete examples -/

theorem toString_one : toString (1 : Nat) = "1" := rfl

theorem toString_two : toString (2 : Nat) = "2" := rfl

theorem toString_three : toString (3 : Nat) = "3" := rfl

/-! ## Claim C1 -/

/-- C1, counterexample: `flat_param_dict` does not omit `None` values.  On the
spec's own example `flat_param_dict({"a": 1, "b": None}, "")` the output
contains the entry `"b" -> None` (the scalar base case of params.py line 251
returns `{prefix: value}` for any non-dict non-iterable value, `None`
included), so the output is not the map containing only `"a"`. -/
theorem c1_flat_param_dict_emits_none :
    flat_param_dict (.dict [("a", .int 1), ("b", .none)]) "" =
      .ok [("a", .int 1), ("b", .none)] ∧
    ("b", PValue.none) ∈ [("a", PValue.int 1), ("b", PValue.none)] := by
  constructor
  · simp [flat_param_dict, flat_param_dict_entries, flat_param_dict_elems, dotJoin,
      dictUpdate, dictInsert]
  · simp

/-- C1, amended: the flattener used to build requests,
`RequestParameter.to_dict` (mws.py line 559), silently omits `None` values
wherever they occur — no successful output ever stores a `None` value — and on
the spec's example `to_dict` of `{"a": 1, "b": None}` (empty key) yields the
map containing only `"a"`.  The structural flattener `flat_param_dict`, in
contrast, emits `None` under its key (see the counterexample). -/
theorem c1_to_dict_omits_none :
    (∀ (v : PValue) (key : String) (out : List (String × PValue)),
      RequestParameter.to_dict key v = .ok out → ∀ q ∈ out, q.2 ≠ PValue.none) ∧
    RequestParameter.to_dict "" (.dict [("a", .int 1), ("b", .none)]) = .ok [("a", .int 1)] := by
  constructor
  · exact fun v key out h q hq => to_dict_no_none v key out h q hq
  · simp [RequestParameter.to_dict, RequestParameter.keyed_value,
      RequestParameter.enumerated_value, RequestParameter.param_key, ensureDot,
      PValue.isDict, PValue.isIter, dictUpdate, dictInsert]

/-- C1, witness: instantiating the omission theorem at a concrete sequence
containing `None` (`RequestParameter(key="x", value=[None, 7])`): the `None`
element produces no entry (while still consuming index 1), and the produced
entry's value is not `None`. -/
theorem c1_to_dict_omits_none_witness :
    RequestParameter.to_dict "x" (.list [.none, .int 7]) = .ok [("x.2", .int 7)] ∧
    ("x.2", PValue.int 7).2 ≠ PValue.none := by
  constructor
  · simp [RequestParameter.to_dict, RequestParameter.keyed_value,
      RequestParameter.enumerated_value, RequestParameter.param_key, ensureDot,
      PValue.isDict, PValue.isIter, dictUpdate, dictInsert, toString_one, toString_two]
  · exact c1_to_dict_omits_none.1 (.list [.none, .int 7]) "x" [("x.2", .int 7)]
      (by simp [RequestParameter.to_dict, RequestParameter.keyed_value,
        RequestParameter.enumerated_value, RequestParameter.param_key, ensureDot,
        PValue.isDict, PValue.isIter, dictUpdate, dictInsert, toString_one, toString_two])
      ("x.2", .int 7) (List.mem_singleton.mpr rfl)

/-! ## Claim C2 -/

/-- C2, counterexample: calling the signer with an empty secret key does not
fail — it silently returns the ordinary base64-encoded HMAC-SHA256 signature
computed with the empty key (here for
`sign("GET", "https://mws.amazonservices.com", "/", "Timestamp=1", "")`),
rather than raising any `SigningError`. -/
theorem c2_empty_key_signs :
    calc_signature "GET" "https://mws.amazonservices.com" "/" "Timestamp=1" "" =
      "sjmspxsggQB3uXCMdbR4yrc/fKRSRvebL5hbIdX4OpE=" := by
  decide

/-- C2, amended: `calc_signature` performs no validation of the secret key at
all: with an empty secret key it computes, for every method, host, path and
canonical query string, the normal base64-encoded HMAC-SHA256 signature using
the empty key bytes (the code defines no `SigningError`). -/
theorem c2_no_secret_key_validation :
    ∀ method domain uri rd,
      calc_signature method domain uri rd "" =
        base64Encode (hmacSha256 []
          (strBytes (signing_string method domain uri rd))) := by
  intro m d u r
  have h : strBytes "" = [] := rfl
  simp [calc_signature, h]

/-! ## Claim C3 -/

/-- C3, counterexample: without a no-collision assumption the key count can be
smaller than the terminal-scalar count.  The `None`-free structure
`{"a": {"b": 1}, "a.b": 2}` has 2 terminal scalars but flattens to the single
key `"a.b"` (the second entry overwrites the first via `output.update`). -/
theorem c3_key_collision_counterexample :
    noNone (.dict [("a", .dict [("b", .int 1)]), ("a.b", .int 2)]) = true ∧
    flat_param_dict (.dict [("a", .dict [("b", .int 1)]), ("a.b", .int 2)]) "" =
      .ok [("a.b", .int 2)] ∧
    ([("a.b", PValue.int 2)] : List (String × PValue)).length ≠
      terminalCount (.dict [("a", .dict [("b", .int 1)]), ("a.b", .int 2)]) := by
  refine ⟨?_, ?_, ?_⟩
  · simp [noNone, noNoneEntries, noNoneElems]
  · simp [flat_param_dict, flat_param_dict_entries, flat_param_dict_elems, dotJoin,
      dictUpdate, dictInsert]
  · simp [terminalCount, terminalCountEntries, terminalCountElems]

/-- C3, amended: for every structure `v` without `None` values, whenever
flattening succeeds *and no two distinct terminal-scalar paths collide to the
same flat key* (`rawKeys v p` has no duplicates), the output has exactly one
key per terminal scalar: its size equals the number of terminal scalars
reachable from `v` by following mapping keys and sequence indices. -/
theorem c3_key_count_eq_terminal_count (v : PValue) (p : String)
    (out : List (String × PValue)) (hok : flat_param_dict v p = .ok out)
    (hnone : noNone v = true) (hnd : (rawKeys v p).Nodup) :
    out.length = terminalCount v := by
  have h1 := flat_keys v p out hok hnd
  have h2 : out.length = (out.map Prod.fst).length := by simp
  rw [h2, h1, rawKeys_length]

/-- C3, witness: the amended theorem applied to the collision-free `None`-free
structure `{"a": 1, "c": ["x"]}` with empty prefix: 2 output keys, 2 terminal
scalars. -/
theorem c3_key_count_witness :
    flat_param_dict (.dict [("a", .int 1), ("c", .list [.str "x"])]) "" =
      .ok [("a", .int 1), ("c.1", .str "x")] ∧
    noNone (.dict [("a", .int 1), ("c", .list [.str "x"])]) = true ∧
    (rawKeys (.dict [("a", .int 1), ("c", .list [.str "x"])]) "").Nodup ∧
    ([("a", PValue.int 1), ("c.1", PValue.str "x")] : List (String × PValue)).length =
      terminalCount (.dict [("a", .int 1), ("c", .list [.str "x"])]) := by
  refine ⟨?_, ?_, ?_, ?_⟩
  · simp [flat_param_dict, flat_param_dict_entries, flat_param_dict_elems, dotJoin,
      dictUpdate, dictInsert, toString_one]
  · simp [noNone, noNoneEntries, noNoneElems]
  · simp [rawKeys, rawKeysEntries, rawKeysElems, dotJoin, toString_one]
  · exact c3_key_count_eq_terminal_count _ "" _
      (by simp [flat_param_dict, flat_param_dict_entries, flat_param_dict_elems, dotJoin,
        dictUpdate, dictInsert, toString_one])
      (by simp [noNone, noNoneEntries, noNoneElems])
      (by simp [rawKeys, rawKeysEntries, rawKeysElems, dotJoin, toString_one])

/-! ## Claim C4 -/

/-- C4: `calc_request_description` renders the entries sorted by key in
codepoint-lexicographic order, joined as `key=value` pairs with `&`; the
result depends only on the contents of the map (for maps with distinct keys it
is invariant under permutation of the entries), and the flatten-clean-
canonicalize pipeline on `{"b": 1, "a": 2}` yields `"a=2&b=1"`. -/
theorem c4_canonicalization_sorted_deterministic :
    (∀ p q : List (String × String), (p.map Prod.fst).Nodup → p.Perm q →
      calc_request_description p = calc_request_description q) ∧
    flat_param_dict (.dict [("b", .int 1), ("a", .int 2)]) "" =
      .ok [("b", .int 1), ("a", .int 2)] ∧
    clean_params [("b", .int 1), ("a", .int 2)] = .ok [("b", "1"), ("a", "2")] ∧
    calc_request_description [("b", "1"), ("a", "2")] = "a=2&b=1" := by
  refine ⟨?_, ?_, rfl, by decide⟩
  · intro p q hnd hp
    unfold calc_request_description
    have hkeys : (p.map Prod.fst).Perm (q.map Prod.fst) := hp.map Prod.fst
    have hsorteq : (p.map Prod.fst).insertionSort pyStrLe =
        (q.map Prod.fst).insertionSort pyStrLe := by
      refine List.eq_of_perm_of_sorted (r := pyStrLe) ?_ ?_ ?_
      · exact ((List.perm_insertionSort _ _).trans hkeys).trans
          (List.perm_insertionSort _ _).symm
      · exact List.sorted_insertionSort _ _
      · exact List.sorted_insertionSort _ _
    rw [hsorteq]
    congr 1
    apply List.map_congr_left
    intro k hk
    rw [dictGet_perm hnd hp k]
  · simp [flat_param_dict, flat_param_dict_entries, flat_param_dict_elems, dotJoin,
      dictUpdate, dictInsert]

/-- C4, witness: the permutation-invariance part applied to the two orderings
of `{"b": "1", "a": "2"}`. -/
theorem c4_canonicalization_witness :
    (([("b", "1"), ("a", "2")] : List (String × String)).map Prod.fst).Nodup ∧
    calc_request_description [("b", "1"), ("a", "2")] =
      calc_request_description [("a", "2"), ("b", "1")] :=
  ⟨by decide, c4_canonicalization_sorted_deterministic.1 _ _ (by decide)
    (List.Perm.swap ("a", "2") ("b", "1") [])⟩

/-! ## Claim C5 -/

/-- C5, counterexample: changing one argument does not always change the
signature.  The host is lowercased (after scheme stripping) before signing, so
`sign("GET", "Example.com", "/", "Timestamp=1", "key")` and the same call with
host `"example.com"` produce identical output although the host argument
differs. -/
theorem c5_host_case_counterexample :
    calc_signature "GET" "Example.com" "/" "Timestamp=1" "key" =
      calc_signature "GET" "example.com" "/" "Timestamp=1" "key" ∧
    ("Example.com" : String) ≠ "example.com" := by
  constructor
  · decide
  · decide

/-- C5, amended: the signature equals the base64 encoding of the HMAC-SHA256
digest, keyed by the secret-key bytes, of the UTF-8 bytes of
`method + "\n" + lowercase(host without scheme) + "\n" + path + "\n" +
canonicalQueryString`; it is a deterministic function of its arguments, but
hosts with the same normalization (e.g. differing only in letter case) give
identical signatures, so changing the host argument alone need not change the
output. -/
theorem c5_signature_algorithm :
    (∀ method domain uri rd key,
      calc_signature method domain uri rd key =
        base64Encode (hmacSha256 (strBytes key)
          (strBytes (method ++ "\n" ++ hostNorm domain ++ "\n" ++ uri ++ "\n" ++ rd)))) ∧
    (∀ method uri rd key d1 d2, hostNorm d1 = hostNorm d2 →
      calc_signature method d1 uri rd key = calc_signature method d2 uri rd key) := by
  constructor
  · intro m d u r k
    simp [calc_signature, signing_string, joinSep, String.append_assoc]
  · intro m u r k d1 d2 h
    simp only [calc_signature, signing_string, joinSep, h]

/-- C5, witness: the host-normalization part of the amended theorem applied to
`"Example.com"` / `"example.com"`. -/
theorem c5_signature_witness :
    hostNorm "Example.com" = hostNorm "example.com" ∧
    calc_signature "GET" "Example.com" "/" "Timestamp=1" "key" =
      calc_signature "GET" "example.com" "/" "Timestamp=1" "key" :=
  ⟨by decide, c5_signature_algorithm.2 "GET" "/" "Timestamp=1" "key"
    "Example.com" "example.com" (by decide)⟩

/-! ## Claim C6 -/

/-- C6: `flat_param_dict({"a": 1, "c": ["foo", {"what": "have"}]}, "example")`
yields exactly the keys `example.a`, `example.c.1`, `example.c.2.what` (raw
values), cleaning those values yields the claimed map with `"1"`, `"foo"`,
`"have"` as cleaned strings, and `RequestParameter` produces the same flat
map. -/
theorem c6_nested_example :
    flat_param_dict (.dict [("a", .int 1),
        ("c", .list [.str "foo", .dict [("what", .str "have")]])]) "example" =
      .ok [("example.a", .int 1), ("example.c.1", .str "foo"),
        ("example.c.2.what", .str "have")] ∧
    clean_params_dict [("example.a", .int 1), ("example.c.1", .str "foo"),
        ("example.c.2.what", .str "have")] =
      .ok [("example.a", "1"), ("example.c.1", "foo"), ("example.c.2.what", "have")] ∧
    RequestParameter.to_dict "example" (.dict [("a", .int 1),
        ("c", .list [.str "foo", .dict [("what", .str "have")]])]) =
      .ok [("example.a", .int 1), ("example.c.1", .str "foo"),
        ("example.c.2.what", .str "have")] := by
  refine ⟨?_, rfl, ?_⟩
  · simp [flat_param_dict, flat_param_dict_entries, flat_param_dict_elems, dotJoin,
      dictUpdate, dictInsert, toString_one, toString_two]
  · simp [RequestParameter.to_dict, RequestParameter.keyed_value,
      RequestParameter.enumerated_value, RequestParameter.param_key, ensureDot,
      PValue.isDict, PValue.isIter, dictUpdate, dictInsert, toString_one, toString_two]

/-! ## Claim C7 -/

/-- C7: the cleaner is not idempotent: for every string containing at least
one character outside the unreserved set (alphanumerics and `-_.~`), cleaning
twice differs from cleaning once, because the percent sign introduced by the
first encoding is itself escaped by the second. -/
theorem c7_clean_not_idempotent (s : String)
    (h : ∃ c ∈ s.data, unreservedChar c = false) :
    clean_string (clean_string s) ≠ clean_string s := by
  have hp : '%' ∈ (clean_string s).data := percent_mem_clean h
  have hb : (37 : Nat) ∈ strBytes (clean_string s) := by
    simp only [strBytes, utf8BytesOfList, List.mem_flatten]
    refine ⟨utf8Bytes '%', List.mem_map_of_mem utf8Bytes hp, by decide⟩
  have hgrow := clean_grows ⟨37, hb, by decide⟩
  intro heq
  have hdata := congrArg String.data heq
  have hlen := congrArg List.length hdata
  omega

/-- C7, witness: the non-idempotence theorem applied to `"a b"` (the space is
outside the unreserved set). -/
theorem c7_clean_not_idempotent_witness :
    (∃ c ∈ ("a b" : String).data, unreservedChar c = false) ∧
    clean_string (clean_string "a b") ≠ clean_string "a b" :=
  ⟨by decide, c7_clean_not_idempotent "a b" (by decide)⟩

/-! ## Claim C8 -/

/-- C8: every scalar (non-dict, non-iterable) value reaching the flattener
with an empty prefix/key fails: `flat_param_dict` raises its `ValueError`
(spec name `MissingKeyError`) and `RequestParameter.validate` rejects the
empty key, so no output entry is produced. -/
theorem c8_scalar_empty_prefix_errors (v : PValue)
    (h1 : v.isDict = false) (h2 : v.isIter = false) :
    flat_param_dict v "" =
      .error "Non-dict, non-iterable value requires a prefix (would return a mapping of prefix: value)" ∧
    RequestParameter.to_dict "" v =
      .error "Parameter with empty key must have a dict or iterable value." := by
  cases v <;>
    simp_all [flat_param_dict, RequestParameter.to_dict, PValue.isDict, PValue.isIter]

/-- C8, witness: the error theorem applied to the bare string scalar `"x"`. -/
theorem c8_scalar_empty_prefix_witness :
    (PValue.str "x").isDict = false ∧ (PValue.str "x").isIter = false ∧
    flat_param_dict (.str "x") "" =
      .error "Non-dict, non-iterable value requires a prefix (would return a mapping of prefix: value)" :=
  ⟨rfl, rfl, (c8_scalar_empty_prefix_errors (.str "x") rfl rfl).1⟩

/-! ## Claim C9 -/

/-- C9: the two boolean-cleaning variants agree: `clean_bool`
(the `json.dumps` route of params.py) and the `str(bool).lower()` route of
`clean_params` (mws.py) both map `True` to `"true"` and `False` to `"false"`,
hence coincide on all boolean inputs. -/
theorem c9_bool_cleaners_agree :
    clean_bool true = "true" ∧ clean_bool false = "false" ∧
    ∀ b, clean_bool b = clean_params_value (.bool b) := by
  refine ⟨rfl, rfl, ?_⟩
  intro b
  cases b <;> rfl

/-! ## Claim C10 -/

/-- C10: for every non-empty list of values in which every element is falsy
(such as `[0]`, `[False]` or `[""]`), `enumerate_param` and
`enumerate_keyed_param` return the empty mapping — the `not any(values)`
shortcut silently drops all elements even though legitimate falsy values were
supplied. -/
theorem c10_falsy_values_dropped (param : String) (values : List PValue)
    (hne : values ≠ []) (hall : ∀ v ∈ values, pyTruthy v = false) :
    enumerate_param param values = [] ∧
    enumerate_keyed_param param values = .ok [] := by
  have hany : values.any pyTruthy = false := by
    rw [List.any_eq_false]
    intro x hx
    simp [hall x hx]
  constructor
  · simp [enumerate_param, hany]
  · simp [enumerate_keyed_param, hany]

/-- C10, witness: the drop theorem applied to the all-falsy list
`[0, False, ""]`. -/
theorem c10_falsy_values_dropped_witness :
    ([PValue.int 0, PValue.bool false, PValue.str ""] ≠ ([] : List PValue)) ∧
    enumerate_param "Id" [PValue.int 0, PValue.bool false, PValue.str ""] = [] ∧
    enumerate_keyed_param "Id" [PValue.int 0, PValue.bool false, PValue.str ""] = .ok [] := by
  refine ⟨by simp, ?_, ?_⟩
  · exact (c10_falsy_values_dropped "Id" _ (by simp) (by decide)).1
  · exact (c10_falsy_values_dropped "Id" _ (by simp) (by decide)).2
